import Mathlib

/-!
Verification of the prusti-dev region-enrichment engine
(`prusti-interface/src/environment/borrowck2/compiler/extract.rs`) and the
specification collector (`prusti-interface/src/specs/mod.rs`,
`prusti-interface/src/specs/external.rs`).

The driver code (`enrich_mir_body`, `collect_borrowck_info`,
`determine_def_specs`, `add_extern_fn`, `check_duplicates`) is embedded from
the source.  Subroutines the driver calls that live in `rustc_mir` rather than
in this repository (`UniversalRegions::new`, `free_region_relations::create`,
`LocationTable::new`, `MaybeInitializedPlaces`, `type_check`,
`constraint_generation::generate_constraints`, the `derive` helpers) are
modelled from the specification; each such definition carries a doc comment
saying so.
-/

set_option maxHeartbeats 1000000

namespace Borrowck2

/-- Iterate a step function a fixed number of times (fuel-based fixpoint
iteration, used for the transitive-closure computation and the
initialization dataflow). -/
def iterStep {α : Type} (f : α → α) : Nat → α → α
  | 0, x => x
  | n + 1, x => iterStep f n (f x)

theorem iterStep_of_fixed {α : Type} (f : α → α) (x : α) (h : f x = x) :
    ∀ n, iterStep f n x = x := by
  intro n
  induction n with
  | zero => rfl
  | succ n ih =>
    show iterStep f n (f x) = x
    rw [h]
    exact ih

theorem iterStep_reaches {α : Type} (f : α → α) (P : α → Prop) (m : α → Nat) (B : Nat)
    (hP : ∀ y, P y → P (f y)) (hB : ∀ y, P y → m y < B)
    (hprog : ∀ y, P y → f y ≠ y → m y < m (f y)) :
    ∀ (n : Nat) (x : α), P x → B ≤ m x + n → f (iterStep f n x) = iterStep f n x := by
  intro n
  induction n with
  | zero =>
    intro x hx hle
    exfalso
    have h1 := hB x hx
    omega
  | succ n ih =>
    intro x hx hle
    by_cases hfx : f x = x
    · show f (iterStep f n (f x)) = iterStep f n (f x)
      rw [hfx, iterStep_of_fixed f x hfx n]
      exact hfx
    · exact ih (f x) (hP x hx) (by have h1 := hprog x hx hfx; omega)

/-- With fuel equal to the global measure bound, iteration reaches a fixed
point of the step function. -/
theorem iterStep_fix {α : Type} (f : α → α) (P : α → Prop) (m : α → Nat) (B : Nat)
    (hP : ∀ y, P y → P (f y)) (hB : ∀ y, P y → m y < B)
    (hprog : ∀ y, P y → f y ≠ y → m y < m (f y)) (x : α) (hx : P x) :
    f (iterStep f B x) = iterStep f B x :=
  iterStep_reaches f P m B hP hB hprog B x hx (Nat.le_add_left B (m x))

/-- A region variable is an opaque numeric identifier (`RegionVid`). -/
abbrev RegionVid := Nat

/-- One composition step of the transitive-closure computation: adjoin every
pair obtained by chaining two pairs already in the relation. -/
def closureStep (R : Finset (RegionVid × RegionVid)) : Finset (RegionVid × RegionVid) :=
  R ∪ ((R ×ˢ R).filter (fun p => p.1.2 = p.2.1)).image (fun p => (p.1.1, p.2.2))

/-- The region identifiers mentioned (on either side) by a relation. -/
def compSet (R : Finset (RegionVid × RegionVid)) : Finset RegionVid :=
  R.image Prod.fst ∪ R.image Prod.snd

def closureFuel (R : Finset (RegionVid × RegionVid)) : Nat :=
  (compSet R).card * (compSet R).card + 1

/-- Transitive closure of a finite relation by fuel-bounded iteration of
`closureStep`. -/
def transClosure (R : Finset (RegionVid × RegionVid)) : Finset (RegionVid × RegionVid) :=
  iterStep closureStep (closureFuel R) R

theorem subset_closureStep (R : Finset (RegionVid × RegionVid)) : R ⊆ closureStep R :=
  Finset.subset_union_left

theorem compSet_closureStep (R : Finset (RegionVid × RegionVid)) :
    compSet (closureStep R) ⊆ compSet R := by
  intro a ha
  simp only [compSet, closureStep, Finset.mem_union, Finset.mem_image, Finset.mem_filter,
    Finset.mem_product] at ha ⊢
  rcases ha with ⟨p, hp, hpa⟩ | ⟨p, hp, hpa⟩
  · rcases hp with hp | ⟨q, ⟨⟨hq1, hq2⟩, _⟩, hqp⟩
    · exact Or.inl ⟨p, hp, hpa⟩
    · subst hqp
      exact Or.inl ⟨q.1, hq1, hpa⟩
  · rcases hp with hp | ⟨q, ⟨⟨hq1, hq2⟩, _⟩, hqp⟩
    · exact Or.inr ⟨p, hp, hpa⟩
    · subst hqp
      exact Or.inr ⟨q.2, hq2, hpa⟩

theorem subset_prod_of_compSet {R : Finset (RegionVid × RegionVid)} {C : Finset RegionVid}
    (h : compSet R ⊆ C) : R ⊆ C ×ˢ C := by
  intro p hp
  rw [Finset.mem_product]
  constructor
  · exact h (Finset.mem_union_left _ (Finset.mem_image_of_mem Prod.fst hp))
  · exact h (Finset.mem_union_right _ (Finset.mem_image_of_mem Prod.snd hp))

theorem subset_iterStep_closure :
    ∀ (n : Nat) (R : Finset (RegionVid × RegionVid)), R ⊆ iterStep closureStep n R := by
  intro n
  induction n with
  | zero => exact fun R => Finset.Subset.refl R
  | succ n ih =>
    intro R
    exact (subset_closureStep R).trans (ih (closureStep R))

theorem transClosure_subset (R : Finset (RegionVid × RegionVid)) : R ⊆ transClosure R :=
  subset_iterStep_closure (closureFuel R) R

theorem closureStep_fix_transClosure (R : Finset (RegionVid × RegionVid)) :
    closureStep (transClosure R) = transClosure R := by
  apply iterStep_fix closureStep (fun S => compSet S ⊆ compSet R) Finset.card (closureFuel R)
  · exact fun y hy => (compSet_closureStep y).trans hy
  · intro y hy
    have h1 : y ⊆ compSet R ×ˢ compSet R := subset_prod_of_compSet hy
    have h2 := Finset.card_le_card h1
    rw [Finset.card_product] at h2
    unfold closureFuel
    omega
  · intro y hy hne
    exact Finset.card_lt_card (lt_of_le_of_ne (subset_closureStep y) (Ne.symm hne))
  · exact Finset.Subset.refl (compSet R)

theorem transClosure_trans {R : Finset (RegionVid × RegionVid)} {a b c : RegionVid}
    (h1 : (a, b) ∈ transClosure R) (h2 : (b, c) ∈ transClosure R) :
    (a, c) ∈ transClosure R := by
  have hfix := closureStep_fix_transClosure R
  rw [← hfix]
  unfold closureStep
  apply Finset.mem_union_right
  apply Finset.mem_image.mpr
  refine ⟨((a, b), (b, c)), ?_, rfl⟩
  rw [Finset.mem_filter, Finset.mem_product]
  exact ⟨⟨h1, h2⟩, rfl⟩

theorem take_sum_add_drop_sum (l : List Nat) (b : Nat) :
    (l.take b).sum + (l.drop b).sum = l.sum := by
  rw [← List.sum_append, List.take_append_drop]

theorem take_sum_le (l : List Nat) (b : Nat) : (l.take b).sum ≤ l.sum := by
  have h := take_sum_add_drop_sum l b
  omega

theorem take_sum_mono (l : List Nat) {b b' : Nat} (h : b ≤ b') :
    (l.take b).sum ≤ (l.take b').sum := by
  have h2 : l.take b' = l.take b ++ (l.drop b).take (b' - b) := by
    rw [← List.take_add]
    congr 1
    omega
  rw [h2, List.sum_append]
  omega

theorem take_sum_succ (l : List Nat) {b : Nat} (h : b < l.length) :
    (l.take (b + 1)).sum = (l.take b).sum + l.getD b 0 := by
  rw [List.take_succ, List.sum_append]
  congr 1
  rw [List.getD_eq_getElem?_getD, List.getElem?_eq_getElem h]
  simp

/-- Key step for surjectivity of the location indexing: every id below the
cumulative sum of the first `k` sizes is hit by some in-range pair. -/
theorem take_sum_surj (l : List Nat) :
    ∀ (k : Nat), k ≤ l.length → ∀ i, i < (l.take k).sum →
      ∃ b o, b < k ∧ o < l.getD b 0 ∧ (l.take b).sum + o = i := by
  intro k
  induction k with
  | zero =>
    intro _ i hi
    simp at hi
  | succ k ih =>
    intro hk i hi
    have hklt : k < l.length := hk
    have hs := take_sum_succ l hklt
    by_cases hcase : i < (l.take k).sum
    · obtain ⟨b, o, hb, ho, hsum⟩ := ih (Nat.le_of_lt hklt) i hcase
      exact ⟨b, o, Nat.lt_succ_of_lt hb, ho, hsum⟩
    · refine ⟨k, i - (l.take k).sum, Nat.lt_succ_self k, ?_, ?_⟩ <;> omega

/-- The location table: for each basic block, its size in program points
(number of statements plus one for the terminator).  Modelled from the spec:
`LocationTable::new` lives in `rustc_mir::borrow_check::location`, not under
src/; per §3 a location is "a stable, totally ordered identifier for a
specific statement or terminator occurrence" and each (block, offset) pair
maps to exactly one location id. -/
structure LocationTable where
  sizes : List Nat
deriving DecidableEq

def LocationTable.numPoints (t : LocationTable) : Nat := t.sizes.sum

def LocationTable.startOf (t : LocationTable) (b : Nat) : Nat := (t.sizes.take b).sum

/-- The location id assigned to statement offset `o` of block `b`. -/
def LocationTable.locIndex (t : LocationTable) (b o : Nat) : Nat := t.startOf b + o

/-- The (block, offset) pairs the table indexes. -/
def LocationTable.validLoc (t : LocationTable) (b o : Nat) : Prop :=
  b < t.sizes.length ∧ o < t.sizes.getD b 0

theorem LocationTable.locIndex_lt {t : LocationTable} {b o : Nat} (h : t.validLoc b o) :
    t.locIndex b o < t.numPoints := by
  obtain ⟨hb, ho⟩ := h
  have hsucc := take_sum_succ t.sizes hb
  have hmono := take_sum_le t.sizes (b + 1)
  unfold LocationTable.locIndex LocationTable.startOf LocationTable.numPoints
  omega

theorem LocationTable.locIndex_inj {t : LocationTable} {b1 o1 b2 o2 : Nat}
    (h1 : t.validLoc b1 o1) (h2 : t.validLoc b2 o2)
    (heq : t.locIndex b1 o1 = t.locIndex b2 o2) : b1 = b2 ∧ o1 = o2 := by
  obtain ⟨hb1, ho1⟩ := h1
  obtain ⟨hb2, ho2⟩ := h2
  unfold LocationTable.locIndex LocationTable.startOf at heq
  rcases Nat.lt_trichotomy b1 b2 with hlt | heqb | hgt
  · exfalso
    have hs1 := take_sum_succ t.sizes hb1
    have hm : (t.sizes.take (b1 + 1)).sum ≤ (t.sizes.take b2).sum := take_sum_mono t.sizes hlt
    omega
  · subst heqb
    exact ⟨rfl, by omega⟩
  · exfalso
    have hs2 := take_sum_succ t.sizes hb2
    have hm : (t.sizes.take (b2 + 1)).sum ≤ (t.sizes.take b1).sum := take_sum_mono t.sizes hgt
    omega

theorem LocationTable.locIndex_surj {t : LocationTable} {i : Nat} (hi : i < t.numPoints) :
    ∃ b o, t.validLoc b o ∧ t.locIndex b o = i := by
  have h := take_sum_surj t.sizes t.sizes.length (Nat.le_refl _) i
    (by rw [List.take_length]; exact hi)
  obtain ⟨b, o, hb, ho, hsum⟩ := h
  exact ⟨b, o, ⟨hb, ho⟩, hsum⟩

/-- Move errors reported by the gathering pass; abstract tokens. -/
abbrev MoveError := Nat

/-- Gathered move data: the set of places seeded as initialized. -/
abbrev MoveData := Finset Nat

/-- Normalized types; abstract tokens. -/
abbrev Ty := Nat

/-- A basic block of the CFG body: an ordered run of statements ending in one
terminator (we keep the statement count), together with the per-block gen/kill
sets and predecessor list consumed by the initialization dataflow. -/
structure BasicBlockData where
  statementCount : Nat
  gen : Finset Nat
  kill : Finset Nat
  preds : List Nat
deriving DecidableEq

def defaultBlock : BasicBlockData := ⟨0, ∅, ∅, []⟩

/-- A procedure's CFG body (`mir::Body`): basic blocks, the regions occurring
in its types, its borrow expressions (place, region), best-effort local names,
and whether `source.with_opt_param().as_local()` succeeds (the driver unwraps
this; a non-local owner is a fatal contract violation). -/
structure Body where
  basicBlocks : List BasicBlockData
  regions : List RegionVid
  borrows : List (Nat × RegionVid)
  localNames : List (Option String)
  isLocal : Bool
deriving DecidableEq

/-- Upstream type-check tables for the procedure; only the taint flag is
consumed by the driver (`tables.tainted_by_errors`). -/
structure Tables where
  tainted_by_errors : Bool
deriving DecidableEq

/-- Capture kind of a closure upvar (`ty::UpvarCapture`). -/
inductive CaptureKind where
  | byValue
  | byRef
deriving DecidableEq

/-- Ambient per-procedure context queried from `tcx`: signature lifetime
parameters, declared outlives bounds, signature types, type-check tables, the
outcome of `MoveData::gather_moves` (either clean move data or move data
paired with the invalid moves found), and closure capture kinds. -/
structure ProcContext where
  namedLifetimeCount : Nat
  declaredBounds : List (RegionVid × RegionVid)
  inputsAndOutput : List Ty
  tables : Tables
  gatherOutcome : MoveData ⊕ (MoveData × List MoveError)
  captureKinds : List CaptureKind
deriving DecidableEq

/-- The per-procedure inference context; the driver only ever sets its taint
flag. -/
structure InferCtxt where
  tainted_by_errors : Bool
deriving DecidableEq

def InferCtxt.set_tainted_by_errors (i : InferCtxt) : InferCtxt :=
  { i with tainted_by_errors := true }

/-- Per-block sizes in program points: statements plus one terminator. -/
def blockSizes (blocks : List BasicBlockData) : List Nat :=
  blocks.map (fun blk => blk.statementCount + 1)

def LocationTable.new (body : Body) : LocationTable :=
  ⟨blockSizes body.basicBlocks⟩

/-- The (block, statement-offset) pairs that exist in a body: the block index
is in range and the offset addresses one of its statements or (at offset =
statement count) its terminator. -/
def bodyValidLoc (body : Body) (b o : Nat) : Prop :=
  b < body.basicBlocks.length ∧ o ≤ (body.basicBlocks.getD b defaultBlock).statementCount

theorem blockSizes_length (blocks : List BasicBlockData) :
    (blockSizes blocks).length = blocks.length := by
  unfold blockSizes
  exact List.length_map blocks _

theorem blockSizes_getD :
    ∀ (blocks : List BasicBlockData) (b : Nat), b < blocks.length →
      (blockSizes blocks).getD b 0 = (blocks.getD b defaultBlock).statementCount + 1 := by
  intro blocks
  induction blocks with
  | nil =>
    intro b hb
    simp at hb
  | cons blk rest ih =>
    intro b hb
    cases b with
    | zero => rfl
    | succ b =>
      have hb2 : b < rest.length := by simpa using hb
      exact ih b hb2

theorem bodyValidLoc_iff (body : Body) (b o : Nat) :
    bodyValidLoc body b o ↔ (LocationTable.new body).validLoc b o := by
  unfold bodyValidLoc LocationTable.validLoc LocationTable.new
  constructor
  · intro ⟨hb, ho⟩
    refine ⟨by rw [blockSizes_length]; exact hb, ?_⟩
    rw [blockSizes_getD body.basicBlocks b hb]
    omega
  · intro ⟨hb, ho⟩
    rw [blockSizes_length] at hb
    refine ⟨hb, ?_⟩
    rw [blockSizes_getD body.basicBlocks b hb] at ho
    omega

/-- Modelled from the spec: the `MaybeInitializedPlaces` dataflow
(`rustc_mir::dataflow::impls`, not under src/), §4.3: a forward, monotone
fixpoint analysis over the CFG with join = union, seeded from the gathered
move data.  The state is the set of (block, place) pairs whose place is
maybe-initialized at the block's entry. -/
def dfSeeds (body : Body) (mdata : MoveData) : Finset (Nat × Nat) :=
  (mdata.image (fun p => (0, p))).filter (fun q => q.1 < body.basicBlocks.length)

/-- The places recorded for block `b` in a dataflow state. -/
def entryOf (S : Finset (Nat × Nat)) (b : Nat) : Finset Nat :=
  (S.filter (fun q => q.1 = b)).image Prod.snd

/-- Per-block transfer function of the maybe-initialized lattice. -/
def dfTransfer (blk : BasicBlockData) (s : Finset Nat) : Finset Nat :=
  (s \ blk.kill) ∪ blk.gen

/-- Join, over the predecessors of block `b`, of the transferred entry sets. -/
def dfJoin (body : Body) (S : Finset (Nat × Nat)) (b : Nat) : Finset Nat :=
  (body.basicBlocks.getD b defaultBlock).preds.foldr
    (fun p acc => dfTransfer (body.basicBlocks.getD p defaultBlock) (entryOf S p) ∪ acc) ∅

/-- One round-robin sweep of the forward dataflow (cumulative: the state only
grows, which from the bottom state coincides with the ordinary monotone
iteration). -/
def dfStep (body : Body) (mdata : MoveData) (S : Finset (Nat × Nat)) : Finset (Nat × Nat) :=
  S ∪ dfSeeds body mdata ∪
    (Finset.range body.basicBlocks.length).biUnion
      (fun b => (dfJoin body S b).image (fun q => (b, q)))

/-- All places the analysis can ever mention: the gathered move data plus
every block's gen set. -/
def placeUniverse (body : Body) (mdata : MoveData) : Finset Nat :=
  body.basicBlocks.foldr (fun blk acc => blk.gen ∪ acc) mdata

/-- Fuel bounding the fixpoint iteration: the lattice height. -/
def dfFuel (body : Body) (mdata : MoveData) : Nat :=
  body.basicBlocks.length * (placeUniverse body mdata).card + 1

def iterate_to_fixpoint (body : Body) (mdata : MoveData) (S : Finset (Nat × Nat)) :
    Finset (Nat × Nat) :=
  iterStep (dfStep body mdata) (dfFuel body mdata) S

/-- The maybe-initialized fixpoint analysis, run from the bottom state. -/
def maybeInitAnalysis (body : Body) (mdata : MoveData) : Finset (Nat × Nat) :=
  iterate_to_fixpoint body mdata ∅

theorem mdata_subset_placeUniverse (blocks : List BasicBlockData) (mdata : MoveData) :
    mdata ⊆ blocks.foldr (fun blk acc => blk.gen ∪ acc) mdata := by
  induction blocks with
  | nil => exact Finset.Subset.refl mdata
  | cons blk rest ih => exact ih.trans Finset.subset_union_right

theorem gen_subset_placeUniverse (blocks : List BasicBlockData) (mdata : MoveData)
    {blk : BasicBlockData} (h : blk ∈ blocks) :
    blk.gen ⊆ blocks.foldr (fun b acc => b.gen ∪ acc) mdata := by
  induction blocks with
  | nil => simp at h
  | cons hd rest ih =>
    rcases List.mem_cons.mp h with heq | hmem
    · subst heq
      exact Finset.subset_union_left
    · exact (ih hmem).trans Finset.subset_union_right

theorem getD_gen_subset (body : Body) (mdata : MoveData) (p : Nat) :
    (body.basicBlocks.getD p defaultBlock).gen ⊆ placeUniverse body mdata := by
  by_cases hp : p < body.basicBlocks.length
  · have hmem : body.basicBlocks.getD p defaultBlock ∈ body.basicBlocks := by
      rw [List.getD_eq_getElem?_getD, List.getElem?_eq_getElem hp]
      exact List.getElem_mem _
    exact gen_subset_placeUniverse body.basicBlocks mdata hmem
  · rw [List.getD_eq_getElem?_getD, List.getElem?_eq_none (by omega)]
    intro x hx
    simp [defaultBlock] at hx

theorem entryOf_subset_of_inv {n : Nat} {U : Finset Nat} {S : Finset (Nat × Nat)}
    (h : S ⊆ Finset.range n ×ˢ U) (b : Nat) : entryOf S b ⊆ U := by
  intro q hq
  simp only [entryOf, Finset.mem_image, Finset.mem_filter] at hq
  obtain ⟨pair, ⟨hpS, _⟩, hsnd⟩ := hq
  have hmem := h hpS
  rw [Finset.mem_product] at hmem
  rw [← hsnd]
  exact hmem.2

theorem dfTransfer_subset {blk : BasicBlockData} {s U : Finset Nat}
    (hs : s ⊆ U) (hg : blk.gen ⊆ U) : dfTransfer blk s ⊆ U :=
  Finset.union_subset ((Finset.sdiff_subset).trans hs) hg

theorem dfJoin_subset {body : Body} {mdata : MoveData} {S : Finset (Nat × Nat)}
    (h : S ⊆ Finset.range body.basicBlocks.length ×ˢ placeUniverse body mdata) (b : Nat) :
    dfJoin body S b ⊆ placeUniverse body mdata := by
  unfold dfJoin
  generalize (body.basicBlocks.getD b defaultBlock).preds = ps
  induction ps with
  | nil =>
    intro x hx
    simp at hx
  | cons p rest ih =>
    simp only [List.foldr_cons]
    apply Finset.union_subset
    · exact dfTransfer_subset (entryOf_subset_of_inv h p) (getD_gen_subset body mdata p)
    · exact ih

theorem dfStep_inv {body : Body} {mdata : MoveData} {S : Finset (Nat × Nat)}
    (h : S ⊆ Finset.range body.basicBlocks.length ×ˢ placeUniverse body mdata) :
    dfStep body mdata S ⊆ Finset.range body.basicBlocks.length ×ˢ placeUniverse body mdata := by
  unfold dfStep
  apply Finset.union_subset
  · apply Finset.union_subset h
    intro q hq
    simp only [dfSeeds, Finset.mem_filter, Finset.mem_image] at hq
    obtain ⟨⟨p, hp, hq2⟩, hlt⟩ := hq
    rw [Finset.mem_product, Finset.mem_range]
    refine ⟨hlt, ?_⟩
    rw [← hq2]
    exact (mdata_subset_placeUniverse body.basicBlocks mdata) hp
  · intro q hq
    rw [Finset.mem_biUnion] at hq
    obtain ⟨b, hb, hq2⟩ := hq
    rw [Finset.mem_image] at hq2
    obtain ⟨v, hv, hq3⟩ := hq2
    rw [← hq3, Finset.mem_product, Finset.mem_range]
    exact ⟨Finset.mem_range.mp hb, dfJoin_subset h b hv⟩

theorem subset_dfStep (body : Body) (mdata : MoveData) (S : Finset (Nat × Nat)) :
    S ⊆ dfStep body mdata S :=
  Finset.subset_union_left.trans Finset.subset_union_left

theorem dfStep_fix (body : Body) (mdata : MoveData) :
    dfStep body mdata (maybeInitAnalysis body mdata) = maybeInitAnalysis body mdata := by
  apply iterStep_fix (dfStep body mdata)
      (fun S => S ⊆ Finset.range body.basicBlocks.length ×ˢ placeUniverse body mdata)
      Finset.card (dfFuel body mdata)
  · exact fun y hy => dfStep_inv hy
  · intro y hy
    have h1 := Finset.card_le_card hy
    rw [Finset.card_product, Finset.card_range] at h1
    unfold dfFuel
    omega
  · intro y _ hne
    exact Finset.card_lt_card (lt_of_le_of_ne (subset_dfStep body mdata y) (Ne.symm hne))
  · exact Finset.empty_subset _

theorem iterate_to_fixpoint_idem (body : Body) (mdata : MoveData) :
    iterate_to_fixpoint body mdata (maybeInitAnalysis body mdata) =
      maybeInitAnalysis body mdata :=
  iterStep_of_fixed (dfStep body mdata) (maybeInitAnalysis body mdata)
    (dfStep_fix body mdata) (dfFuel body mdata)

/-- The universal-region catalog.  Modelled from the spec:
`UniversalRegions::new` lives in `rustc_mir::borrow_check::universal_regions`,
not under src/; §4.2: "construct one universal region per distinct named
lifetime parameter, plus exactly one additional synthetic region representing
the scope of the function body itself" (`fr_fn_body`). -/
structure UniversalRegions where
  namedRegions : List RegionVid
  fr_fn_body : RegionVid
deriving DecidableEq

def UniversalRegions.new (ctx : ProcContext) : UniversalRegions :=
  { namedRegions := List.range ctx.namedLifetimeCount
    fr_fn_body := ctx.namedLifetimeCount }

/-- The full catalog: all named universal regions plus the body-scope region. -/
def UniversalRegions.catalog (ur : UniversalRegions) : List RegionVid :=
  ur.namedRegions ++ [ur.fr_fn_body]

/-- Modelled from the spec: `renumber_mir` (`rustc_mir::borrow_check::renumber`,
not under src/), §4.1: every region occurring in the body's types is replaced
by a fresh index drawn from one unified counter. -/
def renumber_mir (firstFresh : Nat) (body : Body) : Body :=
  { body with regions := (List.range body.regions.length).map (fun i => firstFresh + i) }

/-- An atomic relational fact emitted into the Polonius-style fact table. -/
inductive Fact where
  | outlivesAt (r1 r2 : RegionVid) (loc : Nat)
  | loanIssuedAt (loan : Nat) (r : RegionVid) (loc : Nat)
  | regionLiveAt (r : RegionVid) (loc : Nat)
deriving DecidableEq

/-- Modelled from the spec: the known-outlives relation computed by
`free_region_relations::create` (`rustc_mir`, not under src/), §4.2: "axioms
entailed by explicit where-clauses/bounds in the signature, closed under
transitivity". -/
def knownOutlives (ctx : ProcContext) : Finset (RegionVid × RegionVid) :=
  transClosure ctx.declaredBounds.toFinset

/-- Modelled from the spec: the outlives constraints `create` appends to the
constraint set initialized before it runs (§4.2, §3: constraints accumulate
monotonically). -/
def createOutlivesConstraints (ctx : ProcContext) : List (RegionVid × RegionVid) :=
  ctx.declaredBounds

/-- Modelled from the spec: the normalized input and output types produced by
`create` (§4.2); normalization itself is opaque here. -/
def normalizedInputsAndOutput (ctx : ProcContext) : List Ty :=
  ctx.inputsAndOutput

/-- The renumbered analysis body: the driver clones the input body and
renumbers the clone; fresh indices start after the universal regions. -/
def renumberedBody (ctx : ProcContext) (input_body : Body) : Body :=
  renumber_mir (ctx.namedLifetimeCount + 1) input_body

/-- The move data the driver extracts from the `gather_moves` outcome
(source: `match MoveData::gather_moves(..) { Ok(m) => (m, Vec::new()),
Err((m, errs)) => (m, errs) }`). -/
def moveDataOf (ctx : ProcContext) : MoveData :=
  match ctx.gatherOutcome with
  | Sum.inl md => md
  | Sum.inr (md, _) => md

/-- The move-error list from the same match; the source binds it as
`_move_errors` and never uses it again. -/
def moveErrorsOf (ctx : ProcContext) : List MoveError :=
  match ctx.gatherOutcome with
  | Sum.inl _ => []
  | Sum.inr (_, errs) => errs

/-- The inference context handed to `type_check`: the driver sets the taint
flag first when the upstream tables were tainted (source: `if let Some(..) =
tables.tainted_by_errors { infcx.set_tainted_by_errors(); }`). -/
def infcxForTypeCheck (infcx : InferCtxt) (ctx : ProcContext) : InferCtxt :=
  if ctx.tables.tainted_by_errors = true then infcx.set_tainted_by_errors else infcx

/-- Upvars resolved from capture kinds (source: `by_ref` is false for
`ByValue` captures and true for `ByRef` ones). -/
def upvarsOf (ctx : ProcContext) : List Bool :=
  ctx.captureKinds.map (fun k => match k with
    | CaptureKind.byValue => false
    | CaptureKind.byRef => true)

/-- The dataflow cursor the driver builds before type checking. -/
def flowOf (ctx : ProcContext) (input_body : Body) : Finset (Nat × Nat) :=
  maybeInitAnalysis (renumberedBody ctx input_body) (moveDataOf ctx)

/-- Modelled from the spec: the facts `type_check` (`rustc_mir`, not under
src/) appends, §4.4: a loan record per borrow expression and a liveness fact
per region use, appended to the shared fact table; the inference context and
dataflow cursor are consulted but no previously recorded fact is touched. -/
def typeCheckEmit (infcx : InferCtxt) (body : Body) (flow : Finset (Nat × Nat))
    (upvars : List Bool) : List Fact :=
  body.borrows.map (fun pr => Fact.loanIssuedAt pr.1 pr.2 0) ++
  body.regions.map (fun r => Fact.regionLiveAt r 0)

/-- Modelled from the spec: `constraint_generation::generate_constraints`
(`rustc_mir`, not under src/), §4.4: a sweep deriving liveness purely from the
CFG structure, appending region-live facts. -/
def generateConstraintsEmit (body : Body) : List Fact :=
  body.regions.map (fun r => Fact.regionLiveAt r 1)

/-- Modelled from the spec: the liveness constraints the same sweep appends to
`constraints.liveness_constraints`. -/
def generateLivenessEmit (body : Body) : List (RegionVid × Nat) :=
  body.regions.map (fun r => (r, 1))

/-- Append newly emitted facts to the optional fact accumulator, exactly as
the rustc passes do (`if let Some(facts) = all_facts { .. push .. }`): a
`some` accumulator grows, a `none` one stays `none`. -/
def appendFacts (facts : Option (List Fact)) (new : List Fact) : Option (List Fact) :=
  facts.map (fun l => l ++ new)

/-- The fact table right after `let mut all_facts = Some(Default::default())`. -/
def factsStage0 : List Fact := []

/-- The fact table after `type_check` has run. -/
def factsAfterTypeCheck (infcx : InferCtxt) (ctx : ProcContext) (input_body : Body) :
    List Fact :=
  factsStage0 ++ typeCheckEmit (infcxForTypeCheck infcx ctx) (renumberedBody ctx input_body)
    (flowOf ctx input_body) (upvarsOf ctx)

/-- The fact table after `generate_constraints` has run. -/
def factsAfterGenerate (infcx : InferCtxt) (ctx : ProcContext) (input_body : Body) :
    List Fact :=
  factsAfterTypeCheck infcx ctx input_body ++
    generateConstraintsEmit (renumberedBody ctx input_body)

/-- The tuple `collect_borrowck_info` returns (source line 65): universal
regions, their known-outlives pairs, normalized signature types, the
renumbered body, the optional fact table, and the location table; we also
carry the constraint accumulators to state monotonicity. -/
structure CollectResult where
  universal_regions : UniversalRegions
  universal_regions_outlives : Finset (RegionVid × RegionVid)
  inputs_and_output : List Ty
  body : Body
  all_facts : Option (List Fact)
  location_table : LocationTable
  liveness_constraints : List (RegionVid × Nat)
  outlives_constraints : List (RegionVid × RegionVid)
deriving DecidableEq

/-- Embedding of `collect_borrowck_info` (extract.rs lines 62-165).  The
`as_local().unwrap()` on a body with a non-local owner is a fatal
contract violation, modelled as `Except.error`; everything else follows the
source line by line. -/
def collect_borrowck_info (infcx : InferCtxt) (ctx : ProcContext) (input_body : Body) :
    Except String CollectResult :=
  if input_body.isLocal = true then
    let body := renumberedBody ctx input_body
    let universal_regions := UniversalRegions.new ctx
    let liveness0 : List (RegionVid × Nat) := []
    let outlives0 : List (RegionVid × RegionVid) := []
    let outlives1 := outlives0 ++ createOutlivesConstraints ctx
    let all_facts0 : Option (List Fact) := some factsStage0
    let location_table := LocationTable.new body
    let move_data := moveDataOf ctx
    let flow_inits := maybeInitAnalysis body move_data
    let infcx1 := infcxForTypeCheck infcx ctx
    let upvars := upvarsOf ctx
    let all_facts1 := appendFacts all_facts0 (typeCheckEmit infcx1 body flow_inits upvars)
    let all_facts2 := appendFacts all_facts1 (generateConstraintsEmit body)
    let liveness1 := liveness0 ++ generateLivenessEmit body
    Except.ok {
      universal_regions := universal_regions
      universal_regions_outlives := knownOutlives ctx
      inputs_and_output := normalizedInputsAndOutput ctx
      body := body
      all_facts := all_facts2
      location_table := location_table
      liveness_constraints := liveness1
      outlives_constraints := outlives1 }
  else
    Except.error "collect_borrowck_info: body owner is not local"

/-- Modelled from the spec: `derive::extract_local_names` (module not under
src/), §4.5: a best-effort local-name table; absent names are `none`, never an
error. -/
def extract_local_names (body : Body) : List (Option String) :=
  body.localNames

/-- Modelled from the spec: `derive::compute_outlives_map` (module not under
src/), §4.5: flattens the raw outlives facts into an adjacency list. -/
def compute_outlives_map (facts : List Fact) : List (RegionVid × RegionVid) :=
  facts.filterMap (fun f => match f with
    | Fact.outlivesAt r1 r2 _ => some (r1, r2)
    | _ => none)

/-- The Enriched Body (`super::MirBody`, assembled at extract.rs lines 48-59). -/
structure MirBody where
  def_id : Nat
  inputs_and_output : List Ty
  body : Body
  universal_regions : UniversalRegions
  universal_regions_outlives : Finset (RegionVid × RegionVid)
  polonius_facts : List Fact
  location_table : LocationTable
  local_names : List (Option String)
  outlives : List (RegionVid × RegionVid)
deriving DecidableEq

/-- Embedding of `enrich_mir_body` (extract.rs lines 34-60): the closure run
under `infer_ctxt().enter` always stores `Some(..)` into `result`, whose
unwrap is modelled by the (dead) `none` branch; the unwrap of the optional
fact table is the second match. -/
def enrich_mir_body (def_id : Nat) (infcx : InferCtxt) (ctx : ProcContext)
    (input_body : Body) : Except String MirBody :=
  let result : Option (Except String CollectResult) :=
    some (collect_borrowck_info infcx ctx input_body)
  match result with
  | none => Except.error "enrich_mir_body: result unwrap failed"
  | some (Except.error e) => Except.error e
  | some (Except.ok cr) =>
    match cr.all_facts with
    | none => Except.error "enrich_mir_body: all_facts unwrap failed"
    | some polonius_facts =>
      Except.ok {
        def_id := def_id
        inputs_and_output := cr.inputs_and_output
        body := cr.body
        universal_regions := cr.universal_regions
        universal_regions_outlives := cr.universal_regions_outlives
        polonius_facts := polonius_facts
        location_table := cr.location_table
        local_names := extract_local_names cr.body
        outlives := compute_outlives_map polonius_facts }

/-- The caller's view of the world: it owns the input body. -/
structure CallerState where
  inputBody : Body
deriving DecidableEq

/-- State-passing rendering of the call boundary: `enrich_mir_body` receives
`input_body: &mir::Body` by shared reference and immediately clones it
(`let mut body = input_body.clone()`), so the caller's state is handed back
unchanged next to the result. -/
def enrich_mir_body_with_caller (def_id : Nat) (infcx : InferCtxt) (ctx : ProcContext)
    (s : CallerState) : CallerState × Except String MirBody :=
  (s, enrich_mir_body def_id infcx ctx s.inputBody)

/-- Evaluation of `collect_borrowck_info` on a body with a local owner. -/
theorem collect_eq (infcx : InferCtxt) (ctx : ProcContext) (input_body : Body)
    (h : input_body.isLocal = true) :
    collect_borrowck_info infcx ctx input_body = Except.ok {
      universal_regions := UniversalRegions.new ctx
      universal_regions_outlives := knownOutlives ctx
      inputs_and_output := normalizedInputsAndOutput ctx
      body := renumberedBody ctx input_body
      all_facts := some (factsAfterGenerate infcx ctx input_body)
      location_table := LocationTable.new (renumberedBody ctx input_body)
      liveness_constraints := generateLivenessEmit (renumberedBody ctx input_body)
      outlives_constraints := createOutlivesConstraints ctx } := by
  unfold collect_borrowck_info
  rw [if_pos h]
  rfl

/-- Evaluation of `enrich_mir_body` on a body with a local owner. -/
theorem enrich_eq (def_id : Nat) (infcx : InferCtxt) (ctx : ProcContext) (input_body : Body)
    (h : input_body.isLocal = true) :
    enrich_mir_body def_id infcx ctx input_body = Except.ok {
      def_id := def_id
      inputs_and_output := normalizedInputsAndOutput ctx
      body := renumberedBody ctx input_body
      universal_regions := UniversalRegions.new ctx
      universal_regions_outlives := knownOutlives ctx
      polonius_facts := factsAfterGenerate infcx ctx input_body
      location_table := LocationTable.new (renumberedBody ctx input_body)
      local_names := extract_local_names (renumberedBody ctx input_body)
      outlives := compute_outlives_map (factsAfterGenerate infcx ctx input_body) } := by
  unfold enrich_mir_body
  rw [collect_eq infcx ctx input_body h]

end Borrowck2

namespace PrustiSpecs

abbrev DefId := Nat
abbrev Span := Nat
abbrev SpecIdRef := Nat

/-- `typed::DefSpecificationMap`: per procedure identifier, its specification
references; the `HashMap` is modelled as an association list where the first
matching key wins (insertion prepends). -/
abbrev DefSpecificationMap := List (DefId × List SpecIdRef)

/-- Insert into an association map; the new binding shadows any older one,
matching `HashMap::insert` overwrite semantics under first-match lookup. -/
def insertA {β : Type} (m : List (DefId × β)) (k : DefId) (v : β) : List (DefId × β) :=
  (k, v) :: m

/-- Embedding of `ExternSpecResolver` (external.rs lines 13-25). -/
structure ExternSpecResolver where
  extern_fn_map : List (DefId × (Option DefId × DefId))
  spec_duplicates : List (DefId × List (DefId × Span))
deriving DecidableEq

/-- Record one more duplicate under `def_id` (external.rs lines 60-67):
push onto the existing list or start a fresh one. -/
def pushDup (dups : List (DefId × List (DefId × Span))) (k : DefId) (v : DefId × Span) :
    List (DefId × List (DefId × Span)) :=
  match List.lookup k dups with
  | some l => insertA dups k (l ++ [v])
  | none => insertA dups k [v]

/-- Embedding of `ExternSpecResolver::add_extern_fn` (external.rs lines
43-75).  The visitor's outcome is passed in as `spec_found`; a second extern
spec for the same function with the same impl type goes to `spec_duplicates`,
anything else (re)inserts into `extern_fn_map`. -/
def add_extern_fn (r : ExternSpecResolver) (current_def_id : DefId)
    (spec_found : Option (DefId × Option DefId × Span)) : ExternSpecResolver :=
  match spec_found with
  | none => r
  | some (def_id, impl_ty, span) =>
    match List.lookup def_id r.extern_fn_map with
    | some (existing_impl_ty, _) =>
      if existing_impl_ty = impl_ty then
        { r with spec_duplicates := pushDup r.spec_duplicates def_id (current_def_id, span) }
      else
        { r with extern_fn_map := insertA r.extern_fn_map def_id (impl_ty, current_def_id) }
    | none =>
      { r with extern_fn_map := insertA r.extern_fn_map def_id (impl_ty, current_def_id) }

/-- Embedding of `ExternSpecResolver::check_duplicates` (external.rs lines
79-89): one diagnostic per entry of `spec_duplicates`, carrying the message
and the spans of the offending specs. -/
def check_duplicates (get_item_name : DefId → String) (r : ExternSpecResolver) :
    List (String × List Span) :=
  r.spec_duplicates.map (fun e =>
    ("duplicate specification for " ++ get_item_name e.1, e.2.map (fun s => s.2)))

/-- The loop body of `determine_def_specs` (mod.rs lines 84-93): for each
extern entry, panic ("duplicate spec") when the real id already has a directly
attached spec, otherwise copy the fake function's specs over to the real id. -/
def determineGo (entries : List (DefId × (Option DefId × DefId)))
    (def_spec : DefSpecificationMap) : Except String DefSpecificationMap :=
  match entries with
  | [] => Except.ok def_spec
  | (real_id, (_, spec_id)) :: rest =>
    if (List.lookup real_id def_spec).isSome then
      Except.error "duplicate spec"
    else
      match List.lookup spec_id def_spec with
      | some specs => determineGo rest (insertA def_spec real_id specs)
      | none => determineGo rest def_spec

/-- Embedding of `SpecCollector::determine_def_specs` (mod.rs lines 80-95);
the `panic!("duplicate spec")` is modelled as `Except.error`. -/
def determine_def_specs (r : ExternSpecResolver) (def_spec : DefSpecificationMap) :
    Except String DefSpecificationMap :=
  determineGo r.extern_fn_map def_spec

theorem lookup_insertA_isSome {β : Type} (m : List (DefId × β)) (k k' : DefId) (v : β)
    (h : (List.lookup k m).isSome) : (List.lookup k (insertA m k' v)).isSome := by
  unfold insertA
  rw [List.lookup_cons]
  cases hk : (k == k') with
  | true => simp
  | false => simpa using h

theorem determineGo_error_of_collision :
    ∀ (entries : List (DefId × (Option DefId × DefId))) (m : DefSpecificationMap),
      (∃ e ∈ entries, (List.lookup e.1 m).isSome) →
      determineGo entries m = Except.error "duplicate spec" := by
  intro entries
  induction entries with
  | nil =>
    intro m h
    obtain ⟨e, he, _⟩ := h
    simp at he
  | cons hd rest ih =>
    intro m h
    obtain ⟨real_id, opt_ty, spec_id⟩ := hd
    by_cases hc : (List.lookup real_id m).isSome
    · unfold determineGo
      rw [if_pos hc]
    · obtain ⟨e, he, hsome⟩ := h
      rcases List.mem_cons.mp he with heq | hmem
      · exfalso
        subst heq
        exact hc hsome
      · unfold determineGo
        rw [if_neg hc]
        cases hl : List.lookup spec_id m with
        | some specs =>
          exact ih (insertA m real_id specs)
            ⟨e, hmem, lookup_insertA_isSome m e.1 real_id specs hsome⟩
        | none => exact ih m ⟨e, hmem, hsome⟩

end PrustiSpecs

open Borrowck2 PrustiSpecs

/-! Concrete instances used by the witnesses below. -/

def demoBody : Body :=
  { basicBlocks := [⟨2, ∅, ∅, []⟩]
    regions := []
    borrows := []
    localNames := [none]
    isLocal := true }

def demoCtx : ProcContext :=
  { namedLifetimeCount := 0
    declaredBounds := []
    inputsAndOutput := []
    tables := ⟨false⟩
    gatherOutcome := Sum.inl ∅
    captureKinds := [] }

def demoCtxTainted : ProcContext := { demoCtx with tables := ⟨true⟩ }

def demoCtxMoveErrors : ProcContext := { demoCtx with gatherOutcome := Sum.inr (∅, [7]) }

def demoCtxBounds : ProcContext :=
  { demoCtx with namedLifetimeCount := 3, declaredBounds := [(0, 1), (1, 2)] }

def demoInfcx : InferCtxt := ⟨false⟩

/-- C1: for every procedure enriched by `enrich_mir_body` — including one with
no generic lifetime parameters — the universal-region catalog in the Enriched
Body is non-empty: it contains at least the implicit synthetic region bounding
the function body's own scope (`fr_fn_body`). -/
theorem c1_universal_catalog_nonempty (def_id : Nat) (infcx : InferCtxt)
    (ctx : ProcContext) (input_body : Body) (h : input_body.isLocal = true) :
    ∃ mb, enrich_mir_body def_id infcx ctx input_body = Except.ok mb ∧
      mb.universal_regions.catalog ≠ [] ∧
      mb.universal_regions.fr_fn_body ∈ mb.universal_regions.catalog := by
  refine ⟨_, enrich_eq def_id infcx ctx input_body h, ?_, ?_⟩
  · show (UniversalRegions.new ctx).catalog ≠ []
    simp [UniversalRegions.new, UniversalRegions.catalog]
  · show (UniversalRegions.new ctx).fr_fn_body ∈ (UniversalRegions.new ctx).catalog
    simp [UniversalRegions.new, UniversalRegions.catalog]

theorem c1_witness :
    demoBody.isLocal = true ∧
    ∃ mb, enrich_mir_body 0 demoInfcx demoCtx demoBody = Except.ok mb ∧
      mb.universal_regions.catalog ≠ [] ∧
      mb.universal_regions.fr_fn_body ∈ mb.universal_regions.catalog :=
  ⟨rfl, c1_universal_catalog_nonempty 0 demoInfcx demoCtx demoBody rfl⟩

/-- C2: the universal-region outlives relation returned by the enrichment
(`universal_regions_outlives`, computed by `free_region_relations::create`
before any statement is visited) is a superset of the declared signature
bounds and is transitively closed. -/
theorem c2_outlives_superset_transitive (def_id : Nat) (infcx : InferCtxt)
    (ctx : ProcContext) (input_body : Body) (h : input_body.isLocal = true) :
    ∃ mb, enrich_mir_body def_id infcx ctx input_body = Except.ok mb ∧
      (∀ p ∈ ctx.declaredBounds, p ∈ mb.universal_regions_outlives) ∧
      (∀ a b c : RegionVid, (a, b) ∈ mb.universal_regions_outlives →
        (b, c) ∈ mb.universal_regions_outlives → (a, c) ∈ mb.universal_regions_outlives) := by
  refine ⟨_, enrich_eq def_id infcx ctx input_body h, ?_, ?_⟩
  · intro p hp
    show p ∈ knownOutlives ctx
    exact transClosure_subset _ (List.mem_toFinset.mpr hp)
  · intro a b c h1 h2
    exact transClosure_trans h1 h2

theorem c2_witness :
    demoBody.isLocal = true ∧
    ∃ mb, enrich_mir_body 0 demoInfcx demoCtxBounds demoBody = Except.ok mb ∧
      (∀ p ∈ demoCtxBounds.declaredBounds, p ∈ mb.universal_regions_outlives) ∧
      (∀ a b c : RegionVid, (a, b) ∈ mb.universal_regions_outlives →
        (b, c) ∈ mb.universal_regions_outlives → (a, c) ∈ mb.universal_regions_outlives) :=
  ⟨rfl, c2_outlives_superset_transitive 0 demoInfcx demoCtxBounds demoBody rfl⟩

/-- C3 counterexample: two enrichment inputs that differ only in the
move-error list discovered by the gathering pass (one reports the invalid
move `7`, the other reports nothing) produce identical Enriched Bodies, so
the move-error list bound as `_move_errors` is discarded, not made available
to the caller. -/
theorem c3_counterexample :
    moveErrorsOf demoCtxMoveErrors = [7] ∧ moveErrorsOf demoCtx = [] ∧
    moveDataOf demoCtxMoveErrors = moveDataOf demoCtx ∧
    enrich_mir_body 0 demoInfcx demoCtxMoveErrors demoBody =
      enrich_mir_body 0 demoInfcx demoCtx demoBody :=
  ⟨rfl, rfl, rfl, rfl⟩

/-- C3 (amended): for every input body containing provably invalid moves, the
move-gathering pass does not abort the enrichment (an Enriched Body is still
produced), and the invalid moves are bound as a local move-error list inside
`collect_borrowck_info` but then discarded: the enrichment result is
independent of them, so they are not made available to the caller. -/
theorem c3_moves_no_abort_but_discarded (def_id : Nat) (infcx : InferCtxt)
    (ctx : ProcContext) (input_body : Body) (h : input_body.isLocal = true) :
    (∃ mb, enrich_mir_body def_id infcx ctx input_body = Except.ok mb) ∧
    enrich_mir_body def_id infcx ctx input_body =
      enrich_mir_body def_id infcx
        { ctx with gatherOutcome := Sum.inl (moveDataOf ctx) } input_body := by
  constructor
  · exact ⟨_, enrich_eq def_id infcx ctx input_body h⟩
  · rfl

theorem c3_witness :
    demoBody.isLocal = true ∧
    ((∃ mb, enrich_mir_body 0 demoInfcx demoCtxMoveErrors demoBody = Except.ok mb) ∧
      enrich_mir_body 0 demoInfcx demoCtxMoveErrors demoBody =
        enrich_mir_body 0 demoInfcx
          { demoCtxMoveErrors with gatherOutcome := Sum.inl (moveDataOf demoCtxMoveErrors) }
          demoBody) :=
  ⟨rfl, c3_moves_no_abort_but_discarded 0 demoInfcx demoCtxMoveErrors demoBody rfl⟩

/-- C4: for a procedure whose upstream type-check was already marked
erroneous, the pass still runs to completion (an Enriched Body is produced)
and the inference context handed to `type_check` has already been flagged as
tainted; the fact table is exactly the one `type_check` produced on that
tainted context, so this is the only escalation, not an abort. -/
theorem c4_tainted_still_completes (def_id : Nat) (infcx : InferCtxt)
    (ctx : ProcContext) (input_body : Body) (h : input_body.isLocal = true)
    (ht : ctx.tables.tainted_by_errors = true) :
    (infcxForTypeCheck infcx ctx).tainted_by_errors = true ∧
    ∃ mb, enrich_mir_body def_id infcx ctx input_body = Except.ok mb ∧
      mb.polonius_facts = factsAfterGenerate infcx ctx input_body := by
  constructor
  · unfold infcxForTypeCheck
    rw [if_pos ht]
    rfl
  · exact ⟨_, enrich_eq def_id infcx ctx input_body h, rfl⟩

theorem c4_witness :
    demoBody.isLocal = true ∧ demoCtxTainted.tables.tainted_by_errors = true ∧
    ((infcxForTypeCheck demoInfcx demoCtxTainted).tainted_by_errors = true ∧
      ∃ mb, enrich_mir_body 0 demoInfcx demoCtxTainted demoBody = Except.ok mb ∧
        mb.polonius_facts = factsAfterGenerate demoInfcx demoCtxTainted demoBody) :=
  ⟨rfl, rfl, c4_tainted_still_completes 0 demoInfcx demoCtxTainted demoBody rfl rfl⟩

/-- C5: the caller's input body is left unchanged by the entire enrichment:
the engine works on a clone, so in the state-passing rendering of the call
the caller state is returned as it was, next to the result computed from the
(cloned) input body. -/
theorem c5_input_body_unchanged (def_id : Nat) (infcx : InferCtxt) (ctx : ProcContext)
    (s : CallerState) :
    (enrich_mir_body_with_caller def_id infcx ctx s).1 = s ∧
    (enrich_mir_body_with_caller def_id infcx ctx s).1.inputBody = s.inputBody ∧
    (enrich_mir_body_with_caller def_id infcx ctx s).2 =
      enrich_mir_body def_id infcx ctx s.inputBody :=
  ⟨rfl, rfl, rfl⟩

/-- C6: within one enrichment run the fact table, the outlives-constraint set
and the liveness-constraint set grow monotonically: each recorded stage is a
superset of every earlier stage, and the final accumulators are exactly the
initial contents extended by what `type_check` and `generate_constraints`
appended — nothing is removed or mutated. -/
theorem c6_fact_append_only (infcx : InferCtxt) (ctx : ProcContext) (input_body : Body)
    (h : input_body.isLocal = true) :
    ∃ cr, collect_borrowck_info infcx ctx input_body = Except.ok cr ∧
      cr.all_facts = some (factsAfterGenerate infcx ctx input_body) ∧
      factsStage0 ⊆ factsAfterTypeCheck infcx ctx input_body ∧
      factsAfterTypeCheck infcx ctx input_body ⊆ factsAfterGenerate infcx ctx input_body ∧
      cr.outlives_constraints = [] ++ createOutlivesConstraints ctx ∧
      ([] : List (RegionVid × RegionVid)) ⊆ cr.outlives_constraints ∧
      cr.liveness_constraints = [] ++ generateLivenessEmit (renumberedBody ctx input_body) ∧
      ([] : List (RegionVid × Nat)) ⊆ cr.liveness_constraints := by
  refine ⟨_, collect_eq infcx ctx input_body h, rfl, ?_, ?_, rfl, ?_, rfl, ?_⟩
  · exact List.nil_subset _
  · exact List.subset_append_left _ _
  · exact List.nil_subset _
  · exact List.nil_subset _

theorem c6_witness :
    demoBody.isLocal = true ∧
    ∃ cr, collect_borrowck_info demoInfcx demoCtx demoBody = Except.ok cr ∧
      cr.all_facts = some (factsAfterGenerate demoInfcx demoCtx demoBody) ∧
      factsStage0 ⊆ factsAfterTypeCheck demoInfcx demoCtx demoBody ∧
      factsAfterTypeCheck demoInfcx demoCtx demoBody ⊆
        factsAfterGenerate demoInfcx demoCtx demoBody ∧
      cr.outlives_constraints = [] ++ createOutlivesConstraints demoCtx ∧
      ([] : List (RegionVid × RegionVid)) ⊆ cr.outlives_constraints ∧
      cr.liveness_constraints = [] ++ generateLivenessEmit (renumberedBody demoCtx demoBody) ∧
      ([] : List (RegionVid × Nat)) ⊆ cr.liveness_constraints :=
  ⟨rfl, c6_fact_append_only demoInfcx demoCtx demoBody rfl⟩

/-- C7: for every body, the location table constructed for it is a bijection
between the (block, statement-offset) pairs that exist in the body
(statements plus terminators, offset = statement count addressing the
terminator) and the location ids 0..N-1 with no gaps, and the mapping is a
deterministic function of the body. -/
theorem c7_location_table_bijective (body : Body) :
    (∀ b o, bodyValidLoc body b o →
      (LocationTable.new body).locIndex b o < (LocationTable.new body).numPoints) ∧
    (∀ b1 o1 b2 o2, bodyValidLoc body b1 o1 → bodyValidLoc body b2 o2 →
      (LocationTable.new body).locIndex b1 o1 = (LocationTable.new body).locIndex b2 o2 →
      b1 = b2 ∧ o1 = o2) ∧
    (∀ i, i < (LocationTable.new body).numPoints →
      ∃ b o, bodyValidLoc body b o ∧ (LocationTable.new body).locIndex b o = i) ∧
    (∀ body2, body2 = body → LocationTable.new body2 = LocationTable.new body) := by
  refine ⟨?_, ?_, ?_, ?_⟩
  · intro b o hv
    exact LocationTable.locIndex_lt ((bodyValidLoc_iff body b o).mp hv)
  · intro b1 o1 b2 o2 h1 h2 heq
    exact LocationTable.locIndex_inj ((bodyValidLoc_iff body b1 o1).mp h1)
      ((bodyValidLoc_iff body b2 o2).mp h2) heq
  · intro i hi
    obtain ⟨b, o, hv, hidx⟩ := LocationTable.locIndex_surj hi
    exact ⟨b, o, (bodyValidLoc_iff body b o).mpr hv, hidx⟩
  · intro body2 hb
    rw [hb]

theorem c7_witness :
    bodyValidLoc demoBody 0 2 ∧
    (LocationTable.new demoBody).locIndex 0 2 < (LocationTable.new demoBody).numPoints :=
  ⟨⟨by decide, by decide⟩,
   (c7_location_table_bijective demoBody).1 0 2 ⟨by decide, by decide⟩⟩

/-- C8: the initialization dataflow is deterministic (it is a pure function
of the body and gathered move data) and idempotent: the analysis result is a
fixed point of the sweep, so running the fixpoint engine again on the result
of the first run yields identical initialized-place sets at every program
point. -/
theorem c8_dataflow_idempotent (body : Body) (mdata : MoveData) :
    dfStep body mdata (maybeInitAnalysis body mdata) = maybeInitAnalysis body mdata ∧
    iterate_to_fixpoint body mdata (maybeInitAnalysis body mdata) =
      maybeInitAnalysis body mdata ∧
    ∀ b, entryOf (iterate_to_fixpoint body mdata (maybeInitAnalysis body mdata)) b =
      entryOf (maybeInitAnalysis body mdata) b := by
  refine ⟨dfStep_fix body mdata, iterate_to_fixpoint_idem body mdata, ?_⟩
  intro b
  rw [iterate_to_fixpoint_idem body mdata]

/-- C10: `enrich_mir_body` always returns an Enriched Body with a present
fact table: the optional fact accumulator is initialized to `Some` before the
body is walked and no pass ever sets it to `None`, so the final unwraps of
the collected result and of the fact table cannot fail for any input whose
owner resolves locally (the engine's precondition). -/
theorem c10_fact_table_present (def_id : Nat) (infcx : InferCtxt) (ctx : ProcContext)
    (input_body : Body) (h : input_body.isLocal = true) :
    ∃ cr, collect_borrowck_info infcx ctx input_body = Except.ok cr ∧
      cr.all_facts.isSome = true ∧
      ∃ mb, enrich_mir_body def_id infcx ctx input_body = Except.ok mb ∧
        cr.all_facts = some mb.polonius_facts := by
  exact ⟨_, collect_eq infcx ctx input_body h, rfl, _,
    enrich_eq def_id infcx ctx input_body h, rfl⟩

theorem c10_witness :
    demoBody.isLocal = true ∧
    ∃ cr, collect_borrowck_info demoInfcx demoCtx demoBody = Except.ok cr ∧
      cr.all_facts.isSome = true ∧
      ∃ mb, enrich_mir_body 0 demoInfcx demoCtx demoBody = Except.ok mb ∧
        cr.all_facts = some mb.polonius_facts :=
  ⟨rfl, c10_fact_table_present 0 demoInfcx demoCtx demoBody rfl⟩

def demoResolver : ExternSpecResolver := ⟨[(1, (none, 10))], []⟩

def demoDefSpec : DefSpecificationMap := [(1, [5]), (10, [5])]

def demoResolverDups : ExternSpecResolver := ⟨[(1, (none, 10))], [(1, [(2, 99)])]⟩

def demoName : PrustiSpecs.DefId → String := fun _ => "f"

/-- C9: when, for the same real procedure identifier, both a directly
attached specification and an extern-style redirection claim a specification,
`determine_def_specs` treats this as a fatal "duplicate spec" condition
(panic, modelled as the error) rather than resolving it; a duplicate among
two extern specifications for the same function and impl type is instead
recorded in `spec_duplicates` (leaving `extern_fn_map` unchanged) and
reported as a diagnostic by `check_duplicates`. -/
theorem c9_duplicate_spec_handling :
    (∀ (r : ExternSpecResolver) (m : DefSpecificationMap),
      (∃ e ∈ r.extern_fn_map, (List.lookup e.1 m).isSome) →
      determine_def_specs r m = Except.error "duplicate spec") ∧
    (∀ (r : ExternSpecResolver) (cur d : PrustiSpecs.DefId) (ity : Option PrustiSpecs.DefId)
      (sp : Span) (f : PrustiSpecs.DefId),
      List.lookup d r.extern_fn_map = some (ity, f) →
      (add_extern_fn r cur (some (d, ity, sp))).extern_fn_map = r.extern_fn_map ∧
      ∃ l, List.lookup d (add_extern_fn r cur (some (d, ity, sp))).spec_duplicates = some l ∧
        (cur, sp) ∈ l) ∧
    (∀ (get_item_name : PrustiSpecs.DefId → String) (r : ExternSpecResolver)
      (d : PrustiSpecs.DefId) (l : List (PrustiSpecs.DefId × Span)),
      (d, l) ∈ r.spec_duplicates →
      ("duplicate specification for " ++ get_item_name d, l.map (fun s => s.2)) ∈
        check_duplicates get_item_name r) := by
  refine ⟨?_, ?_, ?_⟩
  · intro r m h
    exact determineGo_error_of_collision r.extern_fn_map m h
  · intro r cur d ity sp f hl
    simp only [add_extern_fn, hl]
    rw [if_pos trivial]
    constructor
    · rfl
    · unfold pushDup
      cases hd : List.lookup d r.spec_duplicates with
      | some l0 =>
        refine ⟨l0 ++ [(cur, sp)], ?_, by simp⟩
        unfold insertA
        rw [List.lookup_cons]
        simp
      | none =>
        refine ⟨[(cur, sp)], ?_, by simp⟩
        unfold insertA
        rw [List.lookup_cons]
        simp
  · intro get_item_name r d l hm
    unfold check_duplicates
    exact List.mem_map.mpr ⟨(d, l), hm, rfl⟩

theorem c9_witness :
    ((∃ e ∈ demoResolver.extern_fn_map, (List.lookup e.1 demoDefSpec).isSome) ∧
      determine_def_specs demoResolver demoDefSpec = Except.error "duplicate spec") ∧
    (List.lookup 1 demoResolver.extern_fn_map = some (none, 10) ∧
      (add_extern_fn demoResolver 2 (some (1, none, 99))).extern_fn_map =
        demoResolver.extern_fn_map ∧
      ∃ l, List.lookup 1 (add_extern_fn demoResolver 2 (some (1, none, 99))).spec_duplicates =
        some l ∧ (2, 99) ∈ l) ∧
    ((1, [(2, 99)]) ∈ demoResolverDups.spec_duplicates ∧
      ("duplicate specification for " ++ demoName 1, ([(2, 99)] : List (PrustiSpecs.DefId × Span)).map
        (fun s => s.2)) ∈ check_duplicates demoName demoResolverDups) :=
  have h1 : ∃ e ∈ demoResolver.extern_fn_map, (List.lookup e.1 demoDefSpec).isSome := by decide
  have h2 : List.lookup 1 demoResolver.extern_fn_map = some (none, 10) := by decide
  have h3 : (1, [(2, 99)]) ∈ demoResolverDups.spec_duplicates := by decide
  ⟨⟨h1, c9_duplicate_spec_handling.1 demoResolver demoDefSpec h1⟩,
   ⟨h2, c9_duplicate_spec_handling.2.1 demoResolver 2 1 none 99 10 h2⟩,
   ⟨h3, c9_duplicate_spec_handling.2.2 demoName demoResolverDups 1 [(2, 99)] h3⟩⟩
